import Mathlib

/-!
Shallow embedding of zmq2mjpeg/objdetect.py (class ObjDetect) and proofs of the
specified properties of its post-processing pipeline.

Conventions of the embedding:
* Python floats are modelled as rationals; all score comparisons in the source
  are order comparisons that rationals reproduce exactly.
* Exceptions are modelled with Except / explicit error branches; state that the
  source mutates in place (the frame, the global random generator) is passed
  explicitly.
* External collaborators (OpenCV, the TFLite interpreter, the Python standard
  library) are modelled where the source calls them; each such definition
  carries a doc comment saying what is modelled.
-/

namespace Objdetect

attribute [local semireducible] Rat.add Rat.mul Rat.sub Rat.inv Rat.ofScientific

/-- Decidable equality of Except values, componentwise. -/
instance {ε α : Type} [DecidableEq ε] [DecidableEq α] : DecidableEq (Except ε α) := fun a b =>
  match a, b with
  | .ok x, .ok y => if h : x = y then .isTrue (by rw [h]) else .isFalse (by simp [h])
  | .error x, .error y => if h : x = y then .isTrue (by rw [h]) else .isFalse (by simp [h])
  | .ok _, .error _ => .isFalse (by simp)
  | .error _, .ok _ => .isFalse (by simp)

/-- Error taxonomy for the per-call failure modes of the module: invalidInput
is the failure of preprocessing on an empty frame, inferenceError is an
interpreter invocation failure, indexError and typeError are the Python
exceptions that out-of-range indexing and indexing None raise. -/
inductive DetectError where
  | invalidInput
  | inferenceError
  | indexError
  | typeError
deriving Repr, DecidableEq

/-- Python int() on a rational: truncation toward zero. -/
def pyInt (x : ℚ) : ℤ :=
  if 0 ≤ x then ⌊x⌋ else -⌊-x⌋

/-- Python list indexing lst[c] with an integer index: negative indices count
from the end, and an index out of range raises IndexError. -/
def pyListGet {α : Type} (l : List α) (c : ℤ) : Except DetectError α :=
  let idx : ℤ := if c < 0 then c + l.length else c
  if 0 ≤ idx then
    match l.get? idx.toNat with
    | some a => .ok a
    | none => .error .indexError
  else .error .indexError

/-! ### Python dict with string keys

A Python dict preserves insertion order; assigning to an existing key updates
the value in place, assigning to a fresh key appends. Lookup finds the unique
entry for a key (modelled as first match). -/

/-- Python dict assignment d[k] = v. -/
def dictInsert (d : List (String × ℚ)) (k : String) (v : ℚ) : List (String × ℚ) :=
  if d.any (fun p => p.1 = k) then
    d.map (fun p => if p.1 = k then (k, v) else p)
  else d ++ [(k, v)]

/-- Python dict lookup d.get(k). -/
def dictLookup (d : List (String × ℚ)) (k : String) : Option ℚ :=
  match d with
  | [] => none
  | p :: rest => if p.1 = k then some p.2 else dictLookup rest k

/-! ### Result filter: ObjDetect.non_max_suppression

Faithful to the source loop: iterate i over range(min(max_boxes, len(boxes)))
(after replacing a falsy max_boxes by len(boxes)); keep entry i when scores is
None or scores[i] > min_score_thresh.  When scores is None the subsequent
out_scores.append(scores[i]) raises TypeError; an index beyond the length of
scores or classes raises IndexError. -/

/-- Loop body of non_max_suppression over the list of indices it visits. -/
def nmsLoop {β γ : Type} (scores : Option (List ℚ)) (boxes : List β) (classes : List γ)
    (min_score_thresh : ℚ) : List ℕ → Except DetectError (List ℚ × List β × List γ)
  | [] => .ok ([], [], [])
  | i :: rest =>
    match scores with
    | none =>
      -- scores is None passes the keep test, then scores[i] raises TypeError
      .error .typeError
    | some s =>
      match s.get? i with
      | none => .error .indexError
      | some v =>
        if min_score_thresh < v then
          match boxes.get? i, classes.get? i with
          | some b, some c =>
            match nmsLoop (some s) boxes classes min_score_thresh rest with
            | .ok (os, ob, oc) => .ok (v :: os, b :: ob, c :: oc)
            | .error e => .error e
          | _, _ => .error .indexError
        else nmsLoop (some s) boxes classes min_score_thresh rest

/-- ObjDetect.non_max_suppression from the source: an early-exit count cap plus
a strict score cutoff over parallel sequences, returning
(out_scores, out_boxes, out_classes). -/
def non_max_suppression {β γ : Type} (scores : Option (List ℚ)) (boxes : List β)
    (classes : List γ) (max_boxes : ℕ) (min_score_thresh : ℚ) :
    Except DetectError (List ℚ × List β × List γ) :=
  -- if not max_boxes: max_boxes = boxes.shape[0] (a falsy cap means no cap)
  nmsLoop scores boxes classes min_score_thresh
    (List.range (min (if max_boxes = 0 then boxes.length else max_boxes) boxes.length))

/-! ### Python random: Mersenne Twister (MT19937)

Models the parts of the CPython random module that generate_colors uses:
random.seed(n) for a 32-bit nonnegative integer n, and random.shuffle, whose
Fisher-Yates loop draws indices with _randbelow (rejection sampling over
getrandbits). All words are naturals reduced mod 2^32 where the C code wraps. -/

def mtMask : ℕ := 4294967295

/-- Generator state: the 624-word vector and the read index. -/
structure MTState where
  mt : Array ℕ
  idx : ℕ
deriving Repr

/-- Modelled from the spec: CPython init_genrand, filling the state vector from
a single 32-bit word. -/
def mtInitGenrand (s : ℕ) : Array ℕ :=
  let a0 := (Array.mkArray 624 0).setD 0 (s &&& mtMask)
  (List.range' 1 623).foldl (fun a i =>
    let prev := a.getD (i - 1) 0
    a.setD i ((1812433253 * (prev ^^^ (prev >>> 30)) + i) &&& mtMask)) a0

/-- Modelled from the spec: CPython init_by_array, seeding the state from a key
of 32-bit words. -/
def mtInitByArray (key : List ℕ) : Array ℕ :=
  let a := mtInitGenrand 19650218
  let klen := key.length
  let step1 := fun (st : Array ℕ × ℕ × ℕ) (_ : ℕ) =>
    let (a, i, j) := st
    let prev := a.getD (i - 1) 0
    let v := ((a.getD i 0 ^^^ ((prev ^^^ (prev >>> 30)) * 1664525)) + key.getD j 0 + j) &&& mtMask
    let a := a.setD i v
    let i := i + 1
    let j := j + 1
    let (a, i) := if i ≥ 624 then ((a.setD 0 (a.getD 623 0)), 1) else (a, i)
    let j := if j ≥ klen then 0 else j
    (a, i, j)
  let (a, i, _) := (List.range (max 624 klen)).foldl step1 (a, 1, 0)
  let step2 := fun (st : Array ℕ × ℕ) (_ : ℕ) =>
    let (a, i) := st
    let prev := a.getD (i - 1) 0
    let v := ((a.getD i 0 ^^^ ((prev ^^^ (prev >>> 30)) * 1566083941)) + 4294967296 - i) &&& mtMask
    let a := a.setD i v
    let i := i + 1
    if i ≥ 624 then ((a.setD 0 (a.getD 623 0)), 1) else (a, i)
  let (a, _) := (List.range 623).foldl step2 (a, i)
  a.setD 0 2147483648

/-- Modelled from the spec: random.seed(n) for an integer 0 <= n < 2^32, whose
key array is the single word n; idx 624 forces a twist on the first draw. -/
def mtSeed32 (n : ℕ) : MTState :=
  ⟨mtInitByArray [n &&& mtMask], 624⟩

/-- Modelled from the spec: the MT19937 twist that regenerates the state
vector in place. -/
def mtTwist (mt : Array ℕ) : Array ℕ :=
  (List.range 624).foldl (fun a i =>
    let y := (a.getD i 0 &&& 2147483648) + (a.getD ((i + 1) % 624) 0 &&& 2147483647)
    let v := a.getD ((i + 397) % 624) 0 ^^^ (y >>> 1) ^^^ (if y % 2 = 1 then 2567483615 else 0)
    a.setD i v) mt

/-- Modelled from the spec: genrand_uint32, one tempered 32-bit draw. -/
def genrandUint32 (g : MTState) : ℕ × MTState :=
  let g := if g.idx ≥ 624 then MTState.mk (mtTwist g.mt) 0 else g
  let y := g.mt.getD g.idx 0
  let y := y ^^^ (y >>> 11)
  let y := y ^^^ ((y <<< 7) &&& 2636928640)
  let y := y ^^^ ((y <<< 15) &&& 4022730752)
  let y := y ^^^ (y >>> 18)
  (y, MTState.mk g.mt (g.idx + 1))

/-- Modelled from the spec: random.getrandbits(k) for k <= 32. -/
def getrandbits (k : ℕ) (g : MTState) : ℕ × MTState :=
  let (r, g) := genrandUint32 g
  (r >>> (32 - k), g)

/-- Rejection loop of _randbelow with fuel; the fuel branch (never reached in
practice, each draw succeeds with probability > 1/2) still yields a value
below n so that downstream indexing stays in range. -/
def randbelowGo (n k : ℕ) : ℕ → MTState → ℕ × MTState
  | 0, g => (0, g)
  | fuel + 1, g =>
    let (r, g) := getrandbits k g
    if r < n then (r, g) else randbelowGo n k fuel g

/-- Modelled from the spec: Random._randbelow(n) via getrandbits over
n.bit_length() bits. -/
def randbelow (n : ℕ) (g : MTState) : ℕ × MTState :=
  randbelowGo n (Nat.size n) 64 g

/-- List swap x[i], x[j] = x[j], x[i], guarded so that an out-of-range index
leaves the list unchanged (the shuffle only produces in-range indices). -/
def listSwap {α : Type} (l : List α) (i j : ℕ) : List α :=
  match l.get? i, l.get? j with
  | some a, some b => (l.set i b).set j a
  | _, _ => l

/-- Fisher-Yates loop of random.shuffle over the descending index list. -/
def shuffleLoop {α : Type} : List ℕ → List α → MTState → List α × MTState
  | [], l, g => (l, g)
  | i :: rest, l, g =>
    let (j, g) := randbelow (i + 1) g
    shuffleLoop rest (listSwap l i j) g

/-- Modelled from the spec: random.shuffle(x), iterating i over
reversed(range(1, len(x))) and swapping x[i] with x[_randbelow(i+1)]. -/
def pyShuffle {α : Type} (l : List α) (g : MTState) : List α × MTState :=
  shuffleLoop ((List.range' 1 (l.length - 1)).reverse) l g

/-! ### Color table generator: ObjDetect.generate_colors -/

/-- Modelled from the spec: colorsys.hsv_to_rgb, ported verbatim over
rationals; the final branch is the i = 5 case, exhaustive because i % 6 lies
in [0, 5]. Rational arithmetic can differ from the binary floats of the
source by one unit in the last place of a scaled channel; none of the
verified properties (count, channel range, determinism) is sensitive to
that. -/
def hsv_to_rgb (h s v : ℚ) : ℚ × ℚ × ℚ :=
  if s = 0 then (v, v, v)
  else
    let i : ℤ := pyInt (h * 6)
    let f : ℚ := h * 6 - i
    let p : ℚ := v * (1 - s)
    let q : ℚ := v * (1 - s * f)
    let t : ℚ := v * (1 - s * (1 - f))
    let i := i % 6
    if i = 0 then (v, t, p)
    else if i = 1 then (q, v, p)
    else if i = 2 then (p, v, t)
    else if i = 3 then (p, q, t)
    else if i = 4 then (t, p, v)
    else (v, p, q)

/-- Global random-generator state: some g is a seeded Mersenne Twister, none is
the unseeded/default state (random.seed(None), reseeded from entropy). -/
abbrev GlobalRand := Option MTState

/-- The pre-shuffle color list of generate_colors: hsv_tuples (hue x/n, full
saturation and value), converted with hsv_to_rgb and scaled to 0-255 integer
channels. -/
def colorTableBase (n : ℕ) : List (ℤ × ℤ × ℤ) :=
  let hsv_tuples := (List.range n).map (fun (x : ℕ) => ((x : ℚ) / (n : ℚ), (1 : ℚ), (1 : ℚ)))
  let colors := hsv_tuples.map (fun t => hsv_to_rgb t.1 t.2.1 t.2.2)
  colors.map (fun c => (pyInt (c.1 * 255), pyInt (c.2.1 * 255), pyInt (c.2.2 * 255)))

/-- ObjDetect.generate_colors from the source: hue-partitioned HSV colors
scaled to integer channels, shuffled under the fixed seed 10101, with the
global random state reset to unseeded afterward (random.seed(None)). The
incoming global state is part of the signature (the source touches the
process-wide generator) but is overwritten by random.seed(10101) before any
draw, so the colors do not depend on it. -/
def generate_colors (class_names : List String) (_g : GlobalRand) :
    List (ℤ × ℤ × ℤ) × GlobalRand :=
  ((pyShuffle (colorTableBase class_names.length) (mtSeed32 10101)).1, none)

/-! ### Frames and image preprocessing -/

/-- A video frame: height x width x 3 pixel array in BGR channel order with
8-bit channels (channel values as integers). -/
structure Frame where
  pixels : List (List (ℤ × ℤ × ℤ))
deriving Repr, DecidableEq

def Frame.height (f : Frame) : ℕ := f.pixels.length

def Frame.width (f : Frame) : ℕ := (f.pixels.headD []).length

/-- A frame with no pixels (zero rows or zero columns), which OpenCV treats as
an empty Mat. -/
def Frame.isEmpty (f : Frame) : Bool := f.height = 0 || f.width = 0

/-- Modelled from the spec: cv2.cvtColor with COLOR_BGR2RGB. OpenCV rejects an
empty source image (the assertion failure that the spec classifies as the
InvalidInput error) and otherwise swaps the first and third channel of every
pixel. -/
def cvtColor_BGR2RGB (image : Frame) : Except DetectError Frame :=
  if image.isEmpty then .error .invalidInput
  else .ok ⟨image.pixels.map (fun row => row.map (fun px => (px.2.2, px.2.1, px.1)))⟩

/-- Modelled from the spec: cv2.resize of a nonempty image to (size, size).
Pixel selection is modelled as nearest-neighbour sampling; no verified
property depends on the interpolation. -/
def cvResize (image : Frame) (size : ℕ) : Frame :=
  let h := image.height
  let w := image.width
  ⟨(List.range size).map (fun i =>
    (List.range size).map (fun j =>
      (image.pixels.getD (i * h / size) []).getD (j * w / size) (0, 0, 0)))⟩

/-- A model-input tensor: batch x rows x cols of RGB triples. Rationals stand
in for the float32 values of the source; the astype cast is the identity in
this model. -/
abbrev Tensor := List (List (List (ℚ × ℚ × ℚ)))

/-- ObjDetect.preprocess_image_for_tflite from the source: BGR to RGB, resize
to the model size, add a batch dimension, normalize with (2/255)*x - 1. -/
def preprocess_image_for_tflite (image : Frame) (model_image_size : ℕ) :
    Except DetectError Tensor :=
  match cvtColor_BGR2RGB image with
  | .error e => .error e
  | .ok image =>
    let image := cvResize image model_image_size
    let batched := [image.pixels]
    .ok (batched.map (fun rows => rows.map (fun row => row.map (fun px =>
      ((2 / 255 : ℚ) * px.1 - 1, (2 / 255 : ℚ) * px.2.1 - 1, (2 / 255 : ℚ) * px.2.2 - 1)))))

/-! ### The detector object -/

/-- The ObjDetect instance state after construction: the configured minimum
score, the allow-list (None is coerced to the empty list by valid_labels or
[] in the constructor), the fixed class catalog and the generated color
table. The interpreter handle itself is an external collaborator and is
passed to the per-frame operations as a function argument. -/
structure ObjDetect where
  min_score : ℚ
  valid_labels : List String
  class_names : List String
  colors : List (ℤ × ℤ × ℤ)

/-- The 90-entry class catalog hard-coded in ObjDetect.__init__. -/
def coco_class_names : List String :=
  ["None1", "person", "bicycle", "car", "motorbike", "airplane", "bus", "train", "truck",
   "boat", "traffic light", "fire hydrant", "None12", "stop sign", "parking meter", "bench",
   "bird", "cat", "dog", "horse", "sheep", "cow", "elephant", "bear", "zebra", "giraffe",
   "None", "backpack", "umbrella", "None29", "Noe30", "handbag", "tie", "suitcase", "frisbee",
   "skis", "snowboard", "sports ball", "kite", "baseball bat", "baseball glove", "skateboard",
   "surfboard", "tennis racket", "bottle", "None45", "wine glass", "cup", "fork", "knife",
   "spoon", "bowl", "banana", "apple", "sandwich", "orange", "broccoli", "carrot", "hot dog",
   "pizza", "donut", "cake", "chair", "sofa", "pottedplant", "bed", "None66", "diningtable",
   "None68", "None69", "toilet", "None71", "tvmonitor", "laptop", "mouse", "remote",
   "keyboard", "cell phone", "microwave", "oven", "toaster", "sink", "refrigerator", "None83",
   "book", "clock", "vase", "scissors", "teddy bear", "hair drier", "toothbrush"]

/-- ObjDetect.__init__ without the interpreter loading (external collaborator;
a bad model file is a construction-time ConfigurationError outside this
model): stores min_score, coerces an absent allow-list to [], fixes the class
catalog and generates the color table. -/
def mkObjDetect (valid_labels : Option (List String)) (min_score : ℚ) : ObjDetect :=
  ⟨min_score, valid_labels.getD [], coco_class_names,
    (generate_colors coco_class_names none).1⟩

/-! ### Label aggregation loop of ObjDetect.detect_frame -/

/-- The detections loop of detect_frame, factored out: iterate (i, c) over
reversed(list(enumerate(out_classes))); resolve the class name; skip when an
allow-list is configured and the name is not in it; read the score; skip when
it is strictly below min_score; otherwise assign detections[name] = score. -/
def aggLoop (d : ObjDetect) (out_scores : List ℚ) (acc : List (String × ℚ)) :
    List (ℕ × ℤ) → Except DetectError (List (String × ℚ))
  | [] => .ok acc
  | (i, c) :: rest =>
    match pyListGet d.class_names c with
    | .error e => .error e
    | .ok predicted_class =>
      if d.valid_labels ≠ [] ∧ predicted_class ∉ d.valid_labels then
        aggLoop d out_scores acc rest
      else
        match out_scores.get? i with
        | none => .error .indexError
        | some score =>
          if score < d.min_score then aggLoop d out_scores acc rest
          else aggLoop d out_scores (dictInsert acc predicted_class score) rest

/-- The label-to-score aggregation of detect_frame applied to the filtered
parallel sequences, starting from an empty dict. -/
def aggregate (d : ObjDetect) (out_scores : List ℚ) (out_classes : List ℤ) :
    Except DetectError (List (String × ℚ)) :=
  aggLoop d out_scores [] (out_classes.enum.reverse)

/-- Specification-side view of one aggregation step: the score that the pair
(i, c) contributes to label L, if any. It mirrors the branch structure of
aggLoop: none when the class does not resolve, is filtered by the allow-list,
has no score at index i, falls strictly below min_score, or resolves to a
label other than L. -/
def passScore (d : ObjDetect) (out_scores : List ℚ) (L : String) (p : ℕ × ℤ) : Option ℚ :=
  match pyListGet d.class_names p.2 with
  | .error _ => none
  | .ok predicted_class =>
    if d.valid_labels ≠ [] ∧ predicted_class ∉ d.valid_labels then none
    else
      match out_scores.get? p.1 with
      | none => none
      | some score =>
        if score < d.min_score then none
        else if predicted_class = L then some score else none

/-- The contribution of the first (earliest) pair in the list that passes for
label L. -/
def findFirstPass (d : ObjDetect) (out_scores : List ℚ) (L : String) :
    List (ℕ × ℤ) → Option ℚ
  | [] => none
  | p :: rest =>
    match passScore d out_scores L p with
    | some v => some v
    | none => findFirstPass d out_scores L rest

/-- The contribution of the last (latest) pair in the list that passes for
label L. -/
def findLastPass (d : ObjDetect) (out_scores : List ℚ) (L : String) :
    List (ℕ × ℤ) → Option ℚ
  | [] => none
  | p :: rest =>
    match findLastPass d out_scores L rest with
    | some v => some v
    | none => passScore d out_scores L p

/-! ### Inference invocation: ObjDetect.run_detection -/

abbrev Box := ℚ × ℚ × ℚ × ℚ

/-- Raw interpreter outputs for one frame, already squeezed to per-detection
lists: output 0 the boxes, output 1 the class indices (a float tensor in the
model format), output 2 the scores. -/
structure RawOutput where
  boxes : List Box
  classes : List ℚ
  scores : List ℚ

/-- ObjDetect.run_detection from the source, with the interpreter invocation
(set_tensor, invoke, get_tensor — an external collaborator, modelled from the
spec) abstracted as the argument infer, which fails with InferenceError when
the invocation fails. The post-processing shifts every raw class index by +1,
casts to integer, and calls non_max_suppression with its default arguments
max_boxes=10 and min_score_thresh=0.5. -/
def run_detection (infer : Tensor → Except DetectError RawOutput) (image : Tensor) :
    Except DetectError (List ℚ × List Box × List ℤ) :=
  match infer image with
  | .error e => .error e
  | .ok raw =>
    let boxes := raw.boxes
    let scores := raw.scores
    let classes := raw.classes.map (fun c => pyInt (c + 1))
    non_max_suppression (some scores) boxes classes 10 (1 / 2)

/-! ### Annotator: ObjDetect.draw_boxes

The cv2 drawing primitives are external collaborators; they are modelled as
pure frame transformations with the geometry the spec describes. No verified
property inspects drawn pixels: the claims only need that drawing happens
after all fallible steps and only when requested. -/

/-- Modelled from the spec: cv2.rectangle. A negative thickness fills the
rectangle, otherwise the border pixels are painted; the subpixel geometry of
thick OpenCV borders is not reproduced. -/
def cvRectangle (f : Frame) (p1 p2 : ℤ × ℤ) (color : ℤ × ℤ × ℤ) (thickness : ℤ) : Frame :=
  let x1 := min p1.1 p2.1
  let x2 := max p1.1 p2.1
  let y1 := min p1.2 p2.2
  let y2 := max p1.2 p2.2
  ⟨(f.pixels.enum).map (fun r =>
    ((r.2.enum).map (fun q =>
      let xi : ℤ := (q.1 : ℤ)
      let yi : ℤ := (r.1 : ℤ)
      let inside := x1 ≤ xi ∧ xi ≤ x2 ∧ y1 ≤ yi ∧ yi ≤ y2
      if thickness < 0 then (if inside then color else q.2)
      else if inside ∧ (xi = x1 ∨ xi = x2 ∨ yi = y1 ∨ yi = y2) then color
      else q.2)))⟩

/-- Modelled from the spec: cv2.getTextSize for the fixed font and scale of
the source, as a deterministic function of the label length. -/
def cvGetTextSize (label : String) : ℤ × ℤ :=
  ((10 * label.length : ℤ), 22)

/-- Modelled from the spec: cv2.putText, painting the text area at the origin
with the text color; glyph shapes are not reproduced. -/
def cvPutText (f : Frame) (label : String) (org : ℤ × ℤ) (color : ℤ × ℤ × ℤ) : Frame :=
  let sz := cvGetTextSize label
  cvRectangle f org (org.1 + sz.1, org.2 - sz.2) color (-1)

/-- Label text of a detection; the 2-decimal float formatting of the source
only feeds the modelled text metrics, so the score is rendered exactly. -/
def labelText (predicted_class : String) (score : ℚ) : String :=
  predicted_class ++ " " ++ toString score

/-- Loop body of ObjDetect.draw_boxes over the reversed enumeration; the frame
accumulated so far is returned together with the error, if any, so that a
failure mid-loop leaves the partial drawing in place as in the source. -/
def drawLoop (d : ObjDetect) (out_scores : List ℚ) (out_boxes : List Box) :
    List (ℕ × ℤ) → Frame → Frame × Option DetectError
  | [], img => (img, none)
  | (i, c) :: rest, img =>
    match pyListGet d.class_names c with
    | .error e => (img, some e)
    | .ok predicted_class =>
      if d.valid_labels ≠ [] ∧ predicted_class ∉ d.valid_labels then
        drawLoop d out_scores out_boxes rest img
      else
        match out_boxes.get? i, out_scores.get? i with
        | some box, some score =>
          let h : ℚ := (img.height : ℚ)
          let w : ℚ := (img.width : ℚ)
          let label := labelText predicted_class score
          let top := max 0 ⌊box.1 * h + 1 / 2⌋
          let left := max 0 ⌊box.2.1 * w + 1 / 2⌋
          let bottom := min (img.height : ℤ) ⌊box.2.2.1 * h + 1 / 2⌋
          let right := min (img.width : ℤ) ⌊box.2.2.2 * w + 1 / 2⌋
          match pyListGet d.colors c with
          | .error e => (img, some e)
          | .ok color =>
            let col := (color.2.2, color.2.1, color.1)
            let img := cvRectangle img (left, top) (right, bottom) col 6
            let sz := cvGetTextSize label
            let img := cvRectangle img (left - 3, top - 3) (left + 3 + sz.1, top - 5 - sz.2)
              col (-1)
            let img := cvPutText img label (left, top - 4) (0, 0, 0)
            drawLoop d out_scores out_boxes rest img
        | _, _ => (img, some .indexError)

/-- ObjDetect.draw_boxes from the source: draw every kept detection, in
reverse enumeration order, that passes the allow-list filter. -/
def draw_boxes (d : ObjDetect) (image : Frame) (out_scores : List ℚ) (out_boxes : List Box)
    (out_classes : List ℤ) : Frame × Option DetectError :=
  drawLoop d out_scores out_boxes (out_classes.enum.reverse) image

/-! ### Per-frame entry point: ObjDetect.detect_frame -/

/-- ObjDetect.detect_frame from the source: preprocess, run the detection,
aggregate labels, and (only when requested, and only after every fallible
step before it has succeeded) draw onto the frame. The returned frame is the
post-call state of the frame argument the source mutates in place: it equals
the input frame unless drawing ran. -/
def detect_frame (d : ObjDetect) (infer : Tensor → Except DetectError RawOutput)
    (frame : Frame) (draw : Bool) : Except DetectError (List (String × ℚ)) × Frame :=
  match (preprocess_image_for_tflite frame 300).bind (fun t => run_detection infer t) with
  | .error e => (.error e, frame)
  | .ok (out_scores, out_boxes, out_classes) =>
    match aggregate d out_scores out_classes with
    | .error e => (.error e, frame)
    | .ok detections =>
      if draw then
        match draw_boxes d frame out_scores out_boxes out_classes with
        | (frame2, none) => (.ok detections, frame2)
        | (frame2, some e) => (.error e, frame2)
      else (.ok detections, frame)

/-! ### Concrete instances used by the verification examples

The color table field is irrelevant to every verified path (all examples run
with draw = False) and is left empty in these detector values. -/

/-- Detector with minimum score 0.5 and no allow-list. -/
def exMin05 : ObjDetect := ⟨1 / 2, [], coco_class_names, []⟩

/-- Detector with minimum score 0.6 and allow-list car. -/
def exAllowCar : ObjDetect := ⟨6 / 10, ["car"], coco_class_names, []⟩

/-- Detector with minimum score 0.6 and empty allow-list. -/
def exMin06 : ObjDetect := ⟨6 / 10, [], coco_class_names, []⟩

/-- Detector with minimum score 0.1, below the hard-coded 0.5 threshold that
run_detection passes to non_max_suppression. -/
def exMin01 : ObjDetect := ⟨1 / 10, [], coco_class_names, []⟩

/-- Interpreter stub returning one raw detection: class 0, score 0.91. -/
def inferPerson91 : Tensor → Except DetectError RawOutput :=
  fun _ => .ok ⟨[(0, 0, 1, 1)], [0], [91 / 100]⟩

/-- Interpreter stub returning raw classes 0 and 2 with scores 0.3 and 0.7
(one below and one above the hard-coded 0.5 threshold). -/
def inferTwo : Tensor → Except DetectError RawOutput :=
  fun _ => .ok ⟨[(0, 0, 1, 1), (0, 0, 1, 1)], [0, 2], [3 / 10, 7 / 10]⟩

/-- A one-pixel frame. -/
def onePixelFrame : Frame := ⟨[[(0, 0, 0)]]⟩

/-- The empty frame. -/
def emptyFrame : Frame := ⟨[]⟩

/-! ## Lemmas about the Python dict model -/

theorem dictLookup_append (d₁ d₂ : List (String × ℚ)) (L : String) :
    dictLookup (d₁ ++ d₂) L =
      match dictLookup d₁ L with
      | some v => some v
      | none => dictLookup d₂ L := by
  induction d₁ with
  | nil => simp [dictLookup]
  | cons p rest ih =>
    by_cases hp : p.1 = L
    · simp [dictLookup, hp]
    · simp [dictLookup, hp, ih]

theorem dictLookup_eq_none (d : List (String × ℚ)) (k : String)
    (h : d.any (fun p => p.1 = k) = false) : dictLookup d k = none := by
  induction d with
  | nil => simp [dictLookup]
  | cons p rest ih =>
    simp only [List.any_cons, Bool.or_eq_false_iff, decide_eq_false_iff_not] at h
    simp [dictLookup, h.1, ih h.2]

theorem dictLookup_overwrite (d : List (String × ℚ)) (k : String) (v : ℚ) (L : String) :
    dictLookup (d.map (fun p => if p.1 = k then (k, v) else p)) L =
      if L = k then (if d.any (fun p => p.1 = k) then some v else none)
      else dictLookup d L := by
  induction d with
  | nil => simp [dictLookup]
  | cons p rest ih =>
    by_cases hp : p.1 = k
    · by_cases hL : L = k
      · subst hL; simp [dictLookup, hp]
      · have hkL : ¬k = L := fun hh => hL hh.symm
        simp [dictLookup, hp, hkL, hL, ih]
    · by_cases hpL : p.1 = L
      · have hLk : ¬L = k := fun hh => hp (hpL.trans hh)
        simp [dictLookup, hp, hpL, hLk]
      · have hd : (decide (p.1 = k)) = false := by simp [hp]
        have hpq : (if p.1 = k then (k, v) else p) = p := if_neg hp
        simp only [List.map_cons, hpq, dictLookup, if_neg hpL, ih, List.any_cons, hd,
          Bool.false_or]

theorem dictLookup_insert (d : List (String × ℚ)) (k : String) (v : ℚ) (L : String) :
    dictLookup (dictInsert d k v) L = if L = k then some v else dictLookup d L := by
  unfold dictInsert
  split
  · rename_i hany
    rw [dictLookup_overwrite, hany]
    by_cases hL : L = k <;> simp [hL]
  · rename_i hany
    have hfalse : d.any (fun p => p.1 = k) = false := by
      cases hb : d.any (fun p => p.1 = k) with
      | false => rfl
      | true => exact absurd hb hany
    rw [dictLookup_append]
    by_cases hL : L = k
    · subst hL
      rw [dictLookup_eq_none d L hfalse]
      simp [dictLookup]
    · have hkL : ¬k = L := fun hh => hL hh.symm
      cases hdl : dictLookup d L with
      | none => simp [hdl, dictLookup, hL, hkL]
      | some w => simp [hdl, hL]

theorem dictInsert_mem (d : List (String × ℚ)) (k : String) (v : ℚ) (q : String × ℚ)
    (h : q ∈ dictInsert d k v) : q ∈ d ∨ q = (k, v) := by
  unfold dictInsert at h
  split at h
  · obtain ⟨p, hp, hq⟩ := List.mem_map.mp h
    by_cases hpk : p.1 = k
    · right; rw [if_pos hpk] at hq; exact hq.symm
    · left; rw [if_neg hpk] at hq; exact hq ▸ hp
  · rcases List.mem_append.mp h with h1 | h2
    · exact Or.inl h1
    · exact Or.inr (List.mem_singleton.mp h2)

theorem dictInsert_length (d : List (String × ℚ)) (k : String) (v : ℚ) :
    (dictInsert d k v).length ≤ d.length + 1 := by
  unfold dictInsert
  by_cases hany : d.any (fun p => p.1 = k) <;> simp [hany]

/-! ## Lemmas about non_max_suppression -/

theorem nmsLoop_length {β γ : Type} (scores : Option (List ℚ)) (boxes : List β)
    (classes : List γ) (th : ℚ) (idxs : List ℕ) :
    ∀ os ob oc, nmsLoop scores boxes classes th idxs = .ok (os, ob, oc) →
      os.length ≤ idxs.length ∧ ob.length = os.length ∧ oc.length = os.length := by
  induction idxs with
  | nil =>
    intro os ob oc h
    simp only [nmsLoop, Except.ok.injEq, Prod.mk.injEq] at h
    obtain ⟨h1, h2, h3⟩ := h
    subst h1; subst h2; subst h3
    simp
  | cons i rest ih =>
    intro os ob oc h
    simp only [nmsLoop] at h
    split at h
    · exact absurd h (by simp)
    · rename_i s
      split at h
      · exact absurd h (by simp)
      · rename_i v hv
        split at h
        · split at h
          · rename_i b c hb hc
            split at h
            · rename_i os' ob' oc' hrec
              simp only [Except.ok.injEq, Prod.mk.injEq] at h
              obtain ⟨h1, h2, h3⟩ := h
              subst h1; subst h2; subst h3
              obtain ⟨l1, l2, l3⟩ := ih os' ob' oc' hrec
              refine ⟨by simpa using Nat.succ_le_succ l1, by simp [l2], by simp [l3]⟩
            · exact absurd h (by simp)
          · exact absurd h (by simp)
        · obtain ⟨l1, l2, l3⟩ := ih os ob oc h
          exact ⟨Nat.le_succ_of_le l1, l2, l3⟩

theorem nmsLoop_range'_scores {β γ : Type} (boxes : List β) (classes : List γ) (th : ℚ)
    (s : List ℚ) :
    ∀ (n a : ℕ) (os : List ℚ) (ob : List β) (oc : List γ),
      nmsLoop (some s) boxes classes th (List.range' a n) = .ok (os, ob, oc) →
      (∀ v ∈ os, th < v) ∧ os.Sublist (s.drop a) := by
  intro n
  induction n with
  | zero =>
    intro a os ob oc h
    simp only [List.range', nmsLoop, Except.ok.injEq, Prod.mk.injEq] at h
    obtain ⟨h1, h2, h3⟩ := h
    subst h1
    exact ⟨by simp, List.nil_sublist _⟩
  | succ m ih =>
    intro a os ob oc h
    rw [List.range'_succ] at h
    simp only [nmsLoop] at h
    split at h
    · exact absurd h (by simp)
    · rename_i v hv
      rcases List.get?_eq_some.mp hv with ⟨hlt, hget⟩
      rw [List.get_eq_getElem] at hget
      split at h
      · rename_i hth
        split at h
        · rename_i b c hb hc
          split at h
          · rename_i os' ob' oc' hrec
            simp only [Except.ok.injEq, Prod.mk.injEq] at h
            obtain ⟨h1, h2, h3⟩ := h
            subst h1
            obtain ⟨ih1, ih2⟩ := ih (a + 1) os' ob' oc' hrec
            constructor
            · intro w hw
              rcases List.mem_cons.mp hw with hw | hw'
              · exact hw ▸ hth
              · exact ih1 w hw'
            · have hdrop : s.drop a = v :: s.drop (a + 1) := by
                rw [List.drop_eq_getElem_cons hlt]
                congr 1
              rw [hdrop]
              exact List.Sublist.cons₂ v ih2
          · exact absurd h (by simp)
        · exact absurd h (by simp)
      · obtain ⟨ih1, ih2⟩ := ih (a + 1) os ob oc h
        refine ⟨ih1, ih2.trans ?_⟩
        have hdd : s.drop (a + 1) = (s.drop a).drop 1 := by
          rw [List.drop_drop]
        rw [hdd]
        exact List.drop_sublist _ _

theorem nms_ok_scores {β γ : Type} (s : List ℚ) (boxes : List β) (classes : List γ)
    (mb : ℕ) (th : ℚ) (os : List ℚ) (ob : List β) (oc : List γ)
    (h : non_max_suppression (some s) boxes classes mb th = .ok (os, ob, oc)) :
    (∀ v ∈ os, th < v) ∧ os.Sublist s := by
  unfold non_max_suppression at h
  rw [List.range_eq_range'] at h
  have hres := nmsLoop_range'_scores boxes classes th s _ 0 os ob oc h
  simpa using hres

/-! ## Lemmas about the aggregation loop -/

theorem findLastPass_append (d : ObjDetect) (s : List ℚ) (L : String) (l₁ l₂ : List (ℕ × ℤ)) :
    findLastPass d s L (l₁ ++ l₂) =
      match findLastPass d s L l₂ with
      | some v => some v
      | none => findLastPass d s L l₁ := by
  induction l₁ with
  | nil =>
    cases h2 : findLastPass d s L l₂ <;> simp [h2, findLastPass]
  | cons p rest ih =>
    cases h2 : findLastPass d s L l₂ with
    | none =>
      cases h3 : findLastPass d s L rest with
      | none => simp [findLastPass, ih, h2, h3]
      | some w => simp [findLastPass, ih, h2, h3]
    | some w =>
      cases h3 : findLastPass d s L rest with
      | none => simp [findLastPass, ih, h2, h3]
      | some u => simp [findLastPass, ih, h2, h3]

theorem findLastPass_reverse (d : ObjDetect) (s : List ℚ) (L : String) (l : List (ℕ × ℤ)) :
    findLastPass d s L l.reverse = findFirstPass d s L l := by
  induction l with
  | nil => rfl
  | cons p rest ih =>
    rw [List.reverse_cons, findLastPass_append, ih]
    simp only [findLastPass, findFirstPass]

theorem findFirstPass_isSome (d : ObjDetect) (s : List ℚ) (L : String) (ps : List (ℕ × ℤ))
    (p : ℕ × ℤ) (hp : p ∈ ps) (v : ℚ) (hv : passScore d s L p = some v) :
    findFirstPass d s L ps ≠ none := by
  induction ps with
  | nil => cases hp
  | cons q rest ih =>
    simp only [findFirstPass]
    cases hq : passScore d s L q with
    | some w => simp
    | none =>
      rcases List.mem_cons.mp hp with hpq | hmem
      · subst hpq; rw [hq] at hv; cases hv
      · exact ih hmem

theorem aggLoop_lookup (d : ObjDetect) (s : List ℚ) (L : String) (ps : List (ℕ × ℤ)) :
    ∀ (acc det : List (String × ℚ)), aggLoop d s acc ps = .ok det →
      dictLookup det L =
        match findLastPass d s L ps with
        | some v => some v
        | none => dictLookup acc L := by
  induction ps with
  | nil =>
    intro acc det h
    simp only [aggLoop, Except.ok.injEq] at h
    subst h
    simp [findLastPass]
  | cons p rest ih =>
    intro acc det h
    obtain ⟨i, c⟩ := p
    simp only [aggLoop] at h
    split at h
    · exact absurd h (by simp)
    · rename_i pc hpc
      split at h
      · rename_i hfilter
        rw [ih acc det h]
        have hps : passScore d s L (i, c) = none := by
          simp [passScore, hpc, if_pos hfilter]
        cases hflp : findLastPass d s L rest <;> simp [findLastPass, hflp, hps]
      · rename_i hfilter
        split at h
        · exact absurd h (by simp)
        · rename_i score hscore
          have hscoreG : s[i]? = some score := by
            rw [← List.get?_eq_getElem?]; exact hscore
          split at h
          · rename_i hlt
            rw [ih acc det h]
            have hps : passScore d s L (i, c) = none := by
              simp [passScore, hpc, if_neg hfilter, hscoreG, if_pos hlt]
            cases hflp : findLastPass d s L rest <;> simp [findLastPass, hflp, hps]
          · rename_i hge
            rw [ih (dictInsert acc pc score) det h]
            have hlook := dictLookup_insert acc pc score L
            by_cases hpcL : pc = L
            · have hps : passScore d s L (i, c) = some score := by
                simp only [passScore, hpc]
                rw [if_neg hfilter]
                simp [hscoreG, if_neg hge, hpcL]
              rw [if_pos hpcL.symm] at hlook
              cases hflp : findLastPass d s L rest <;>
                simp [findLastPass, hflp, hps, hlook]
            · have hps : passScore d s L (i, c) = none := by
                simp [passScore, hpc, if_neg hfilter, hscoreG, if_neg hge, hpcL]
              have hLpc : ¬L = pc := fun hh => hpcL hh.symm
              rw [if_neg hLpc] at hlook
              cases hflp : findLastPass d s L rest <;>
                simp [findLastPass, hflp, hps, hlook]

theorem aggregate_lookup (d : ObjDetect) (s : List ℚ) (cs : List ℤ)
    (det : List (String × ℚ)) (L : String) (h : aggregate d s cs = .ok det) :
    dictLookup det L = findFirstPass d s L cs.enum := by
  unfold aggregate at h
  have hl := aggLoop_lookup d s L cs.enum.reverse [] det h
  rw [findLastPass_reverse] at hl
  rw [hl]
  cases hffp : findFirstPass d s L cs.enum <;> simp [hffp, dictLookup]

theorem aggLoop_mem (d : ObjDetect) (s : List ℚ) (ps : List (ℕ × ℤ)) :
    ∀ (acc det : List (String × ℚ)), aggLoop d s acc ps = .ok det →
      ∀ q ∈ det, q ∈ acc ∨
        (q.2 ∈ s ∧ d.min_score ≤ q.2 ∧ (d.valid_labels = [] ∨ q.1 ∈ d.valid_labels)) := by
  induction ps with
  | nil =>
    intro acc det h q hq
    simp only [aggLoop, Except.ok.injEq] at h
    subst h
    exact Or.inl hq
  | cons p rest ih =>
    intro acc det h q hq
    obtain ⟨i, c⟩ := p
    simp only [aggLoop] at h
    split at h
    · exact absurd h (by simp)
    · rename_i pc hpc
      split at h
      · exact ih acc det h q hq
      · rename_i hfilter
        split at h
        · exact absurd h (by simp)
        · rename_i score hscore
          split at h
          · exact ih acc det h q hq
          · rename_i hge
            rcases ih (dictInsert acc pc score) det h q hq with hacc | hprop
            · rcases dictInsert_mem acc pc score q hacc with h1 | h2
              · exact Or.inl h1
              · right
                subst h2
                refine ⟨List.get?_mem hscore, le_of_not_lt hge, ?_⟩
                by_cases hv : d.valid_labels = []
                · exact Or.inl hv
                · right
                  by_cases hin : pc ∈ d.valid_labels
                  · exact hin
                  · exact absurd ⟨hv, hin⟩ hfilter
            · exact Or.inr hprop

theorem aggLoop_length (d : ObjDetect) (s : List ℚ) (ps : List (ℕ × ℤ)) :
    ∀ (acc det : List (String × ℚ)), aggLoop d s acc ps = .ok det →
      det.length ≤ acc.length + ps.length := by
  induction ps with
  | nil =>
    intro acc det h
    simp only [aggLoop, Except.ok.injEq] at h
    subst h
    simp
  | cons p rest ih =>
    intro acc det h
    obtain ⟨i, c⟩ := p
    simp only [aggLoop] at h
    split at h
    · exact absurd h (by simp)
    · rename_i pc hpc
      split at h
      · have := ih acc det h
        simp only [List.length_cons]
        omega
      · rename_i hfilter
        split at h
        · exact absurd h (by simp)
        · rename_i score hscore
          split at h
          · have := ih acc det h
            simp only [List.length_cons]
            omega
          · have h1 := ih (dictInsert acc pc score) det h
            have h2 := dictInsert_length acc pc score
            simp only [List.length_cons]
            omega

/-! ## Lemmas about the color table -/

theorem listSwap_length {α : Type} (l : List α) (i j : ℕ) :
    (listSwap l i j).length = l.length := by
  unfold listSwap
  split
  · simp [List.length_set]
  · rfl

theorem listSwap_mem {α : Type} (l : List α) (i j : ℕ) (x : α) (h : x ∈ listSwap l i j) :
    x ∈ l := by
  unfold listSwap at h
  split at h
  · rename_i a b ha hb
    rcases List.mem_or_eq_of_mem_set h with h1 | h2
    · rcases List.mem_or_eq_of_mem_set h1 with h3 | h4
      · exact h3
      · exact h4 ▸ List.get?_mem hb
    · exact h2 ▸ List.get?_mem ha
  · exact h

theorem shuffleLoop_length {α : Type} (idxs : List ℕ) :
    ∀ (l : List α) (g : MTState), ((shuffleLoop idxs l g).1).length = l.length := by
  induction idxs with
  | nil => intro l g; rfl
  | cons i rest ih =>
    intro l g
    cases hr : randbelow (i + 1) g with
    | mk j g2 =>
      simp only [shuffleLoop, hr]
      rw [ih, listSwap_length]

theorem shuffleLoop_mem {α : Type} (idxs : List ℕ) :
    ∀ (l : List α) (g : MTState) (x : α), x ∈ (shuffleLoop idxs l g).1 → x ∈ l := by
  induction idxs with
  | nil => intro l g x h; exact h
  | cons i rest ih =>
    intro l g x h
    cases hr : randbelow (i + 1) g with
    | mk j g2 =>
      simp only [shuffleLoop, hr] at h
      exact listSwap_mem l i j x (ih (listSwap l i j) g2 x h)

theorem pyShuffle_length {α : Type} (l : List α) (g : MTState) :
    ((pyShuffle l g).1).length = l.length :=
  shuffleLoop_length _ l g

theorem pyShuffle_mem {α : Type} (l : List α) (g : MTState) (x : α)
    (h : x ∈ (pyShuffle l g).1) : x ∈ l :=
  shuffleLoop_mem _ l g x h

theorem hsv_to_rgb_unit (h : ℚ) (hh : 0 ≤ h) (r g b : ℚ)
    (heq : hsv_to_rgb h 1 1 = (r, g, b)) :
    (0 ≤ r ∧ r ≤ 1) ∧ (0 ≤ g ∧ g ≤ 1) ∧ (0 ≤ b ∧ b ≤ 1) := by
  have h6 : (0:ℚ) ≤ h * 6 := by positivity
  have hf0 : (0:ℚ) ≤ h * 6 - (⌊h * 6⌋ : ℚ) := by
    have hfr := Int.fract_nonneg (h * 6)
    rwa [Int.fract] at hfr
  have hf1 : h * 6 - (⌊h * 6⌋ : ℚ) ≤ 1 := by
    have hfr := Int.fract_lt_one (h * 6)
    rw [Int.fract] at hfr
    linarith
  have hpy : pyInt (h * 6) = ⌊h * 6⌋ := by rw [pyInt, if_pos h6]
  simp only [hsv_to_rgb, hpy] at heq
  split_ifs at heq <;>
    (simp only [Prod.mk.injEq] at heq
     obtain ⟨e1, e2, e3⟩ := heq
     subst e1; subst e2; subst e3
     refine ⟨⟨?_, ?_⟩, ⟨?_, ?_⟩, ?_, ?_⟩ <;> nlinarith [hf0, hf1])

theorem pyInt_unit_scale (c : ℚ) (h0 : 0 ≤ c) (h1 : c ≤ 1) :
    0 ≤ pyInt (c * 255) ∧ pyInt (c * 255) ≤ 255 := by
  have hnn : (0:ℚ) ≤ c * 255 := by positivity
  rw [pyInt, if_pos hnn]
  constructor
  · exact Int.floor_nonneg.mpr hnn
  · have hle : c * 255 ≤ (255:ℚ) := by nlinarith
    calc ⌊c * 255⌋ ≤ ⌊(255:ℚ)⌋ := Int.floor_le_floor hle
    _ = 255 := by norm_num

theorem colorTableBase_length (n : ℕ) : (colorTableBase n).length = n := by
  unfold colorTableBase
  simp only [List.length_map, List.length_range]

theorem colorTableBase_mem (n : ℕ) (col : ℤ × ℤ × ℤ) (h : col ∈ colorTableBase n) :
    0 ≤ col.1 ∧ col.1 ≤ 255 ∧ 0 ≤ col.2.1 ∧ col.2.1 ≤ 255 ∧
      0 ≤ col.2.2 ∧ col.2.2 ≤ 255 := by
  simp only [colorTableBase, List.mem_map, List.mem_range] at h
  obtain ⟨crgb, ⟨t, ⟨x, hx, ht⟩, hcrgb⟩, hcol⟩ := h
  subst ht
  obtain ⟨r, g, b⟩ := crgb
  have hb := hsv_to_rgb_unit ((x : ℚ) / (n : ℚ))
    (div_nonneg (Nat.cast_nonneg x) (Nat.cast_nonneg n)) r g b (by simpa using hcrgb)
  subst hcol
  obtain ⟨⟨hr0, hr1⟩, ⟨hg0, hg1⟩, hb0, hb1⟩ := hb
  have Hr := pyInt_unit_scale r hr0 hr1
  have Hg := pyInt_unit_scale g hg0 hg1
  have Hb := pyInt_unit_scale b hb0 hb1
  exact ⟨Hr.1, Hr.2, Hg.1, Hg.2, Hb.1, Hb.2⟩

/-! ## Inversion lemmas for the per-frame pipeline -/

theorem except_bind_ok {ε α β : Type} (x : Except ε α) (f : α → Except ε β) (b : β)
    (h : x.bind f = .ok b) : ∃ a, x = .ok a ∧ f a = .ok b := by
  cases x with
  | error e => simp [Except.bind] at h
  | ok a => exact ⟨a, rfl, by simpa [Except.bind] using h⟩

theorem nms_ok_length {β γ : Type} (scores : Option (List ℚ)) (boxes : List β)
    (classes : List γ) (max_boxes : ℕ) (th : ℚ) (os : List ℚ) (ob : List β) (oc : List γ)
    (h : non_max_suppression scores boxes classes max_boxes th = .ok (os, ob, oc)) :
    os.length ≤ (if max_boxes = 0 then boxes.length else min max_boxes boxes.length) ∧
      ob.length = os.length ∧ oc.length = os.length := by
  unfold non_max_suppression at h
  obtain ⟨l1, l2, l3⟩ := nmsLoop_length scores boxes classes th _ os ob oc h
  refine ⟨?_, l2, l3⟩
  rw [List.length_range] at l1
  by_cases hmb : max_boxes = 0
  · simpa [hmb] using l1
  · simpa [hmb] using l1

theorem run_detection_ok_inv (infer : Tensor → Except DetectError RawOutput) (image : Tensor)
    (os : List ℚ) (ob : List Box) (oc : List ℤ)
    (h : run_detection infer image = .ok (os, ob, oc)) :
    ∃ raw, infer image = .ok raw ∧
      non_max_suppression (some raw.scores) raw.boxes
        (raw.classes.map (fun c => pyInt (c + 1))) 10 (1 / 2) = .ok (os, ob, oc) := by
  unfold run_detection at h
  split at h
  · exact absurd h (by simp)
  · rename_i raw hraw
    exact ⟨raw, hraw, h⟩

theorem detect_frame_ok_inv (d : ObjDetect) (infer : Tensor → Except DetectError RawOutput)
    (frame : Frame) (draw : Bool) (det : List (String × ℚ)) (fr : Frame)
    (h : detect_frame d infer frame draw = (.ok det, fr)) :
    ∃ os ob oc,
      (preprocess_image_for_tflite frame 300).bind (fun t => run_detection infer t) =
        .ok (os, ob, oc) ∧
      aggregate d os oc = .ok det := by
  unfold detect_frame at h
  split at h
  · exact absurd h (by simp)
  · rename_i res os ob oc heq
    refine ⟨os, ob, oc, heq, ?_⟩
    split at h
    · exact absurd h (by simp)
    · rename_i detections hagg
      split at h
      · split at h
        · simp only [Prod.mk.injEq, Except.ok.injEq] at h
          rwa [h.1] at hagg
        · exact absurd h (by simp)
      · simp only [Prod.mk.injEq, Except.ok.injEq] at h
        rwa [h.1] at hagg

/-! ## The claims -/

/-- C1: for every scores/boxes/classes input, non_max_suppression with
max_boxes = 0 (the falsy cap) returns at most len(boxes) entries (no
capping), and with max_boxes = k > 0 at most min(k, len(boxes)) entries,
never more; the three returned parallel lists have equal length. -/
theorem claim1_nms_cap {β γ : Type} (scores : Option (List ℚ)) (boxes : List β)
    (classes : List γ) (max_boxes : ℕ) (th : ℚ) (os : List ℚ) (ob : List β) (oc : List γ)
    (h : non_max_suppression scores boxes classes max_boxes th = .ok (os, ob, oc)) :
    os.length ≤ (if max_boxes = 0 then boxes.length else min max_boxes boxes.length) ∧
      ob.length = os.length ∧ oc.length = os.length :=
  nms_ok_length scores boxes classes max_boxes th os ob oc h

/-- Witness for C1: one box above threshold with the falsy cap max_boxes = 0
keeps exactly one entry, within the stated bound. -/
theorem claim1_nms_cap_witness :
    ([(3 : ℚ) / 4].length ≤
        (if (0 : ℕ) = 0 then [(0 : ℚ)].length else min 0 [(0 : ℚ)].length)) ∧
      [(0 : ℚ)].length = [(3 : ℚ) / 4].length ∧ [(0 : ℤ)].length = [(3 : ℚ) / 4].length :=
  claim1_nms_cap (some [3 / 4]) [(0 : ℚ)] [(0 : ℤ)] 0 (1 / 2) [3 / 4] [(0 : ℚ)] [(0 : ℤ)]
    (by decide)

/-- C2: every score in the output of non_max_suppression strictly exceeds the
threshold (no entry with score at or below the threshold survives), and the
kept scores form a sublist of the input scores, so relative input order is
preserved with no re-sorting. -/
theorem claim2_nms_threshold {β γ : Type} (s : List ℚ) (boxes : List β) (classes : List γ)
    (max_boxes : ℕ) (th : ℚ) (os : List ℚ) (ob : List β) (oc : List γ)
    (h : non_max_suppression (some s) boxes classes max_boxes th = .ok (os, ob, oc)) :
    (∀ v ∈ os, th < v) ∧ os.Sublist s :=
  nms_ok_scores s boxes classes max_boxes th os ob oc h

/-- Witness for C2: of the scores 0.4, 0.75, 0.5 against threshold 0.5 only
0.75 survives (0.5 itself is dropped by the strict comparison), in order. -/
theorem claim2_nms_threshold_witness :
    (∀ v ∈ [(3 : ℚ) / 4], (1 : ℚ) / 2 < v) ∧
      [(3 : ℚ) / 4].Sublist [2 / 5, 3 / 4, 1 / 2] :=
  claim2_nms_threshold [2 / 5, 3 / 4, 1 / 2] [(0 : ℚ), 0, 0] [(0 : ℤ), 1, 2] 0 (1 / 2)
    [3 / 4] [0] [1] (by decide)

/-- C3: the aggregation loop of detect_frame iterates the enumeration in
reverse with dict-overwrite semantics, so for every label the final mapping
value is the contribution of the earliest entry (in original, pre-reversal
order) that passes the filters. -/
theorem claim3_earliest_wins (d : ObjDetect) (out_scores : List ℚ) (out_classes : List ℤ)
    (det : List (String × ℚ)) (L : String)
    (h : aggregate d out_scores out_classes = .ok det) :
    dictLookup det L = findFirstPass d out_scores L out_classes.enum :=
  aggregate_lookup d out_scores out_classes det L h

/-- Witness for C3: two same-label detections car with scores 0.5 then 0.8 in
original order aggregate to the value 0.5 (the earliest wins). -/
theorem claim3_earliest_wins_witness :
    dictLookup [("car", (1 : ℚ) / 2)] "car" = some (1 / 2) := by
  have h := claim3_earliest_wins exMin05 [1 / 2, 4 / 5] [3, 3] [("car", 1 / 2)] "car"
    (by decide)
  rw [h]
  decide

/-- C4: when a non-empty allow-list is configured every key of the mapping
returned by the aggregation of detect_frame belongs to the allow-list; with
the allow-list car, minimum score 0.6 and filtered detections car 0.7 and
dog 0.9 the output is exactly the car 0.7 mapping; and with an empty
allow-list no label restriction applies (dog appears as well). -/
theorem claim4_allowlist :
    (∀ (d : ObjDetect) (out_scores : List ℚ) (out_classes : List ℤ)
        (det : List (String × ℚ)), d.valid_labels ≠ [] →
        aggregate d out_scores out_classes = .ok det →
        ∀ q ∈ det, q.1 ∈ d.valid_labels) ∧
      aggregate exAllowCar [7 / 10, 9 / 10] [3, 18] = .ok [("car", 7 / 10)] ∧
      aggregate exMin06 [7 / 10, 9 / 10] [3, 18] =
        .ok [("dog", 9 / 10), ("car", 7 / 10)] := by
  refine ⟨?_, by decide, by decide⟩
  intro d s cs det hvl h q hq
  unfold aggregate at h
  rcases aggLoop_mem d s _ [] det h q hq with hacc | hprop
  · cases hacc
  · rcases hprop.2.2 with h1 | h2
    · exact absurd h1 hvl
    · exact h2

/-- Witness for C4: the key of the single entry produced under the allow-list
car is a member of that allow-list. -/
theorem claim4_allowlist_witness : ("car", (7 : ℚ) / 10).1 ∈ exAllowCar.valid_labels :=
  claim4_allowlist.1 exAllowCar [7 / 10, 9 / 10] [3, 18] [("car", 7 / 10)] (by decide)
    (by decide) ("car", 7 / 10) (by decide)

/-- C5: in the aggregation of detect_frame, the score test skips an entry
exactly when its score is strictly below min_score: every value in the
returned mapping is at least min_score, and conversely an entry that passes
the class resolution, the allow-list and the (non-strict) score comparison —
in particular one whose score equals min_score exactly — makes its label
present in the returned mapping. -/
theorem claim5_min_score :
    (∀ (d : ObjDetect) (out_scores : List ℚ) (out_classes : List ℤ)
        (det : List (String × ℚ)), aggregate d out_scores out_classes = .ok det →
        ∀ q ∈ det, d.min_score ≤ q.2) ∧
      (∀ (d : ObjDetect) (out_scores : List ℚ) (out_classes : List ℤ)
        (det : List (String × ℚ)) (L : String) (p : ℕ × ℤ) (v : ℚ),
        aggregate d out_scores out_classes = .ok det →
        p ∈ out_classes.enum → passScore d out_scores L p = some v →
        dictLookup det L ≠ none) := by
  constructor
  · intro d s cs det h q hq
    unfold aggregate at h
    rcases aggLoop_mem d s _ [] det h q hq with hacc | hprop
    · cases hacc
    · exact hprop.2.1
  · intro d s cs det L p v h hp hv
    rw [aggregate_lookup d s cs det L h]
    exact findFirstPass_isSome d s L cs.enum p hp v hv

/-- Witness for C5: with min_score 0.6, a detection whose score is exactly
0.6 is retained (its value meets the bound and its label is present). -/
theorem claim5_min_score_witness :
    (∀ q ∈ [("car", (6 : ℚ) / 10)], exMin06.min_score ≤ q.2) ∧
      dictLookup [("car", (6 : ℚ) / 10)] "car" ≠ none :=
  ⟨claim5_min_score.1 exMin06 [6 / 10] [3] [("car", 6 / 10)] (by decide),
    claim5_min_score.2 exMin06 [6 / 10] [3] [("car", 6 / 10)] "car" (0, 3) (6 / 10)
      (by decide) (by decide) (by decide)⟩

/-- C6: the inference post-processing shifts every raw class index by +1
before resolving it against the catalog and leaves the score unchanged:
catalog index 1 is person, and a raw detection with pre-shift class index 0
and score 0.91 is reported by detect_frame as person with score 0.91. -/
theorem claim6_class_shift :
    coco_class_names.get? 1 = some "person" ∧
      detect_frame exMin06 inferPerson91 onePixelFrame false =
        (.ok [("person", 91 / 100)], onePixelFrame) :=
  ⟨by decide, by decide⟩

/-- C7: generate_colors returns exactly one color triple per class label,
every channel lies in [0, 255], the result is independent of the incoming
global random state (the shuffle seeds the generator with the fixed value
10101, so two calls with the same input give the identical sequence), and
the global state is reset to the unseeded default afterward. -/
theorem claim7_generate_colors (class_names : List String) (g g' : GlobalRand) :
    ((generate_colors class_names g).1).length = class_names.length ∧
      (∀ col ∈ (generate_colors class_names g).1,
        0 ≤ col.1 ∧ col.1 ≤ 255 ∧ 0 ≤ col.2.1 ∧ col.2.1 ≤ 255 ∧
          0 ≤ col.2.2 ∧ col.2.2 ≤ 255) ∧
      (generate_colors class_names g).1 = (generate_colors class_names g').1 ∧
      (generate_colors class_names g).2 = none := by
  refine ⟨?_, ?_, rfl, rfl⟩
  · unfold generate_colors
    rw [pyShuffle_length, colorTableBase_length]
  · intro col hcol
    unfold generate_colors at hcol
    exact colorTableBase_mem _ col (pyShuffle_mem _ _ col hcol)

/-- C8: detect_frame reaches non_max_suppression only through run_detection,
which hard-codes max_boxes = 10 and min_score_thresh = 0.5, so every
successful detect_frame call returns at most 10 entries and every reported
score strictly exceeds 0.5, even when the configured min_score is lower. -/
theorem claim8_hidden_floor (d : ObjDetect) (infer : Tensor → Except DetectError RawOutput)
    (frame : Frame) (draw : Bool) (det : List (String × ℚ)) (fr : Frame)
    (h : detect_frame d infer frame draw = (.ok det, fr)) :
    det.length ≤ 10 ∧ ∀ q ∈ det, (1 : ℚ) / 2 < q.2 := by
  obtain ⟨os, ob, oc, hpre, hagg⟩ := detect_frame_ok_inv d infer frame draw det fr h
  obtain ⟨t, hpt, hrd⟩ := except_bind_ok _ _ _ hpre
  obtain ⟨raw, hraw, hnms⟩ := run_detection_ok_inv infer t os ob oc hrd
  have hsc := nms_ok_scores _ _ _ _ _ _ _ _ hnms
  obtain ⟨l1, l2, l3⟩ := nms_ok_length _ _ _ _ _ _ _ _ hnms
  have hoc10 : oc.length ≤ 10 := by
    rw [l3]
    refine l1.trans ?_
    split
    · omega
    · exact min_le_left _ _
  unfold aggregate at hagg
  constructor
  · have hlen := aggLoop_length d os _ [] det hagg
    simp only [List.length_nil, List.length_reverse, List.enum_length] at hlen
    omega
  · intro q hq
    rcases aggLoop_mem d os _ [] det hagg q hq with hacc | hprop
    · cases hacc
    · exact hsc.1 q.2 hprop.1

/-- Witness for C8: with configured min_score 0.1 and raw scores 0.3 and 0.7,
detect_frame reports only the 0.7 detection — the configured minimum cannot
widen the output below the hidden 0.5 floor. -/
theorem claim8_hidden_floor_witness :
    [("car", (7 : ℚ) / 10)].length ≤ 10 ∧
      ∀ q ∈ [("car", (7 : ℚ) / 10)], (1 : ℚ) / 2 < q.2 :=
  claim8_hidden_floor exMin01 inferTwo onePixelFrame false [("car", 7 / 10)] onePixelFrame
    (by decide)

/-- C9: preprocessing an empty (zero-sized) frame fails with the InvalidInput
error instead of returning a tensor. -/
theorem claim9_empty_frame (f : Frame) (h : f.isEmpty = true) :
    preprocess_image_for_tflite f 300 = .error .invalidInput := by
  simp [preprocess_image_for_tflite, cvtColor_BGR2RGB, h]

/-- Witness for C9: the frame with no rows. -/
theorem claim9_empty_frame_witness :
    preprocess_image_for_tflite emptyFrame 300 = .error .invalidInput :=
  claim9_empty_frame emptyFrame (by decide)

/-- C10: when preprocessing or inference fails, detect_frame propagates the
error with no detections, and the frame is returned unchanged even when
drawing was requested — there are no partial results. -/
theorem claim10_failure_no_mutation (d : ObjDetect)
    (infer : Tensor → Except DetectError RawOutput) (frame : Frame) (draw : Bool)
    (e : DetectError)
    (h : (preprocess_image_for_tflite frame 300).bind (fun t => run_detection infer t) =
      .error e) :
    detect_frame d infer frame draw = (.error e, frame) := by
  unfold detect_frame
  rw [h]

/-- Witness for C10: an empty frame with drawing requested fails with
InvalidInput and leaves the frame untouched. -/
theorem claim10_failure_no_mutation_witness :
    detect_frame exMin06 inferPerson91 emptyFrame true = (.error .invalidInput, emptyFrame) :=
  claim10_failure_no_mutation exMin06 inferPerson91 emptyFrame true .invalidInput (by rfl)

end Objdetect
